import Mathlib

/-!
Shallow embedding of the go-health library (package `health`,
`src/health/health.go`) in Lean 4, together with proofs of the spec's
claims about it.

Modelling conventions:
- Go `State` is a plain `int`; we model it as `Int` with the three
  declared constants `StateDown = 0`, `StateWarn = 1`, `StateUp = 2`
  (from `iota`).  Nothing restricts a `State` value to these three.
- Go `time.Time` / durations are modelled as `Nat` (a zero value means
  the unset/zero time, as for `time.Time`'s zero value).
- The `Details interface{}` payload is an `Option D` for an arbitrary
  type parameter `D` (`none` plays the role of `nil`).
- The Go map `map[string]CheckStatus` is modelled as an association
  list with Go map semantics for assignment and lookup.
- `context.Context` is modelled by its two observable features used by
  the library: whether its Done channel has fired (`cancelled`) and its
  optional deadline.  `context.WithTimeout` derives a child context
  whose deadline is the parent's deadline capped at `now + d`, and
  starts a timer resource that the returned cancel function releases;
  we track such timer resources with an explicit open-timer counter.
- The per-check polling goroutine spawned by `Monitor.Monitor` is
  modelled as a step function over a task state, one step per loop
  iteration; the `select`/`ctx.Done()` test at the top of the loop
  samples the cancellation flag.  A ghost field counts probe
  executions.
-/

namespace GoHealth

/-- Go `type State int`: the health of a resource as a simple value. -/
abbrev State := Int

/-- `StateDown State = iota` : unhealthy resource state. -/
def StateDown : State := 0

/-- `StateWarn` : healthy resource state with some concerns. -/
def StateWarn : State := 1

/-- `StateUp` : a completely healthy resource state. -/
def StateUp : State := 2

/-- Go `Status`: a state plus an opaque details payload (`nil` = `none`). -/
structure Status (D : Type) where
  state : State
  details : Option D
deriving DecidableEq

/-- Go `CheckStatus`: a status plus the time it was determined
(`timestamp = 0` is the zero `time.Time`). -/
structure CheckStatus (D : Type) where
  status : Status D
  timestamp : Nat
deriving DecidableEq

/-- The observable features of a Go `context.Context` that the library
uses: whether `Done` has fired, and the optional deadline. -/
structure Context where
  cancelled : Bool
  deadline : Option Nat
deriving DecidableEq

/-- Go `context.WithTimeout(ctx, d)` at wall-clock time `now`: the child
context keeps the parent's cancellation and carries a deadline equal to
the parent's deadline capped at `now + d`. -/
def contextWithTimeout (ctx : Context) (d : Nat) (now : Nat) : Context :=
  { ctx with
    deadline := some (match ctx.deadline with
      | none => now + d
      | some pd => min pd (now + d)) }

/-- Go `CheckFunc func(ctx context.Context) Status`. -/
abbrev CheckFunc (D : Type) := Context → Status D

/-- Go `Check`: a named probe with its function, TTL and timeout
(durations in nanoseconds, as for `time.Duration`). -/
structure Check (D : Type) where
  name : String
  func : CheckFunc D
  ttl : Nat
  timeout : Nat

/-- Go `NewCheck(name, checkFunc)`: TTL preset to `time.Second * 1`
(10^9 ns), timeout left at its zero value. -/
def NewCheck {D : Type} (name : String) (checkFunc : CheckFunc D) : Check D :=
  { name := name, func := checkFunc, ttl := 1000000000, timeout := 0 }

/-- The Monitor's `checkStatuses` cache, a Go map keyed by check name. -/
abbrev Cache (D : Type) := List (String × CheckStatus D)

/-- Go map lookup `m[k]` (comma-ok form): the value stored under `k`. -/
def mapGet {D : Type} : Cache D → String → Option (CheckStatus D)
  | [], _ => none
  | (k, v) :: rest, key => if k = key then some v else mapGet rest key

/-- Go map assignment `m[k] = v`: replaces the entry for `k`, or adds
one when `k` is absent.  `Monitor.setCheckStatus` performs exactly this
assignment (under the monitor mutex, which a sequential model elides). -/
def setCheckStatus {D : Type} : Cache D → String → CheckStatus D → Cache D
  | [], key, v => [(key, v)]
  | (k, w) :: rest, key, v =>
      if k = key then (key, v) :: rest else (k, w) :: setCheckStatus rest key v

/-- Go `compareState(stateA, stateB)`: the most degraded of the two. -/
def compareState (stateA : State) (stateB : State) : State :=
  if stateA = StateDown ∨ stateB = StateDown then StateDown
  else if stateA = StateWarn ∨ stateB = StateWarn then StateWarn
  else StateUp

/-- Go `executeCheck(ctx, check)` at wall-clock time `now`: runs the
probe with the given context and records the result with `now` as
timestamp. -/
def executeCheck {D : Type} (ctx : Context) (check : Check D) (now : Nat) :
    CheckStatus D :=
  { status := check.func ctx, timestamp := now }

/-- Deadline-timer resources held by the process: `context.WithTimeout`
starts one, its cancel function releases one. -/
structure Timers where
  openCount : Nat
deriving DecidableEq

/-- Go `executeCheckWithTimeout(ctx, check)`: derives a deadline-bound
child context (opening a timer resource), runs the probe with it, and
the deferred `cancelTimeout()` releases the timer when the call
returns. -/
def executeCheckWithTimeout {D : Type} (ctx : Context) (check : Check D)
    (now : Nat) (tm : Timers) : CheckStatus D × Timers :=
  let timeoutCtx := contextWithTimeout ctx check.timeout now
  let tmOpen : Timers := { openCount := tm.openCount + 1 }
  let result := executeCheck timeoutCtx check now
  let tmClosed : Timers := { openCount := tmOpen.openCount - 1 }
  (result, tmClosed)

/-- The probe-execution step of one polling-loop iteration: the
`if check.Timeout > 0` branch of the goroutine body in
`Monitor.Monitor`. -/
def pollOnce {D : Type} (ctx : Context) (check : Check D) (now : Nat)
    (tm : Timers) : CheckStatus D × Timers :=
  if 0 < check.timeout then executeCheckWithTimeout ctx check now tm
  else (executeCheck ctx check now, tm)

/-- The `initialStatus` value written by `Monitor.Monitor`:
`CheckStatus{Status: Status{State: StateDown}}`, details and timestamp
left at their zero values. -/
def initialStatus {D : Type} : CheckStatus D :=
  { status := { state := StateDown, details := none }, timestamp := 0 }

/-- The synchronous part of Go `Monitor.Monitor(ctx, check)`: before
spawning the polling goroutine it writes `initialStatus` into the cache
under the check's name via `setCheckStatus`. -/
def monitorMonitor {D : Type} (cache : Cache D) (check : Check D) : Cache D :=
  setCheckStatus cache check.name initialStatus

/-- Modelled from the spec: the variadic form of `Monitor.Monitor`
(registration accepts one or more check definitions in a single call;
the variadic implementation is absent from the snapshot, only its
callers and changelog entry are present).  For each supplied check in
order it performs the synchronous registration of `monitorMonitor` and
starts one polling task; the second component lists the checks whose
polling tasks were started. -/
def monitorMonitorMany {D : Type} (cache : Cache D) :
    List (Check D) → Cache D × List (Check D)
  | [] => (cache, [])
  | check :: rest =>
      let cacheSeeded := monitorMonitor cache check
      let res := monitorMonitorMany cacheSeeded rest
      (res.1, check :: res.2)

/-- The loop of Go `Monitor.Check()`: folds every cached state into the
running aggregate with `compareState` and copies every entry into a
fresh map. -/
def checkLoop {D : Type} : Cache D → State → Cache D → State × Cache D
  | [], state, acc => (state, acc)
  | (checkName, checkStatus) :: rest, state, acc =>
      checkLoop rest (compareState state checkStatus.status.state)
        (setCheckStatus acc checkName checkStatus)

/-- Go `MonitorStatus`: overall state plus the copied status map. -/
structure MonitorStatus (D : Type) where
  state : State
  checkStatuses : Cache D
deriving DecidableEq

/-- Go `Monitor.Check()`: starts the aggregate at `StateUp`, iterates
the cache once folding with `compareState` and copying entries into a
fresh map, and returns both. -/
def monitorCheck {D : Type} (cache : Cache D) : MonitorStatus D :=
  let res := checkLoop cache StateUp []
  { state := res.1, checkStatuses := res.2 }

/-- Phases of a polling task: the spec's state machine
{Waiting-to-run, Running, Stopped}. -/
inductive TaskPhase
  | waiting
  | running
  | stopped
deriving DecidableEq

/-- State of one polling task together with the cache it writes to.
`polls` is a ghost counter of completed probe executions. -/
structure TaskState (D : Type) where
  phase : TaskPhase
  cache : Cache D
  timers : Timers
  polls : Nat
deriving DecidableEq

/-- One iteration of the polling goroutine of `Monitor.Monitor` for
`check`, executed at wall-clock time `now`.  At the top of the loop the
`select` samples `ctx.Done()`: if cancelled the task returns (Stopped);
otherwise it executes the probe (with or without a timeout-derived
context), writes the result into the cache with `setCheckStatus`, and
sleeps the TTL before the next iteration (the sleep itself changes no
observable state here). -/
def taskStep {D : Type} (ctx : Context) (check : Check D) (now : Nat)
    (st : TaskState D) : TaskState D :=
  match st.phase with
  | .stopped => st
  | _ =>
      if ctx.cancelled then { st with phase := .stopped }
      else
        let res := pollOnce ctx check now st.timers
        { phase := .waiting
          cache := setCheckStatus st.cache check.name res.1
          timers := res.2
          polls := st.polls + 1 }

/-- Runs `n` successive polling-loop iterations; `times i` is the
wall-clock time at iteration `i`. -/
def taskRun {D : Type} (ctx : Context) (check : Check D) (times : Nat → Nat) :
    Nat → TaskState D → TaskState D
  | 0, st => st
  | n + 1, st => taskRun ctx check times n (taskStep ctx check (times n) st)

/-- A heap reference to a Go map value (Go maps are reference types). -/
abbrev Ref := Nat

/-- An explicit store of map values, to express aliasing facts such as
the independence of the snapshot returned by `Monitor.Check()` from the
monitor's internal cache. -/
abbrev Heap (D : Type) := List (Ref × Cache D)

/-- Reads the map value a reference points at. -/
def heapGet {D : Type} : Heap D → Ref → Option (Cache D)
  | [], _ => none
  | (r, c) :: rest, ref => if r = ref then some c else heapGet rest ref

/-- Stores a map value under a reference. -/
def heapSet {D : Type} : Heap D → Ref → Cache D → Heap D
  | [], ref, c => [(ref, c)]
  | (r, w) :: rest, ref, c =>
      if r = ref then (ref, c) :: rest else (r, w) :: heapSet rest ref c

/-- A reference unused by the heap, as allocated by `make(map...)`. -/
def freshRef {D : Type} (h : Heap D) : Ref :=
  (h.foldr (fun e m => max e.1 m) 0) + 1

/-- Go `Monitor`: a struct holding a reference to its `checkStatuses`
map (the mutex coordinates access and is elided in a sequential
model). -/
structure MonitorRef where
  cacheRef : Ref
deriving DecidableEq

/-- Go `New()`: allocates an empty `checkStatuses` map and returns a
monitor referencing it. -/
def monitorNew {D : Type} (h : Heap D) : MonitorRef × Heap D :=
  let r := freshRef h
  ({ cacheRef := r }, heapSet h r ([] : Cache D))

/-- The result of `Monitor.Check()` in the heap model: the overall
state and a reference to the freshly allocated copy of the map. -/
structure MonitorStatusRef where
  state : State
  checkStatusesRef : Ref
deriving DecidableEq

/-- Go `Monitor.Check()` in the heap model: reads the monitor's cache,
allocates a fresh map (`make(map[string]CheckStatus)`), copies every
entry into it while folding the aggregate state, and returns the
aggregate together with a reference to the copy. -/
def monitorCheckHeap {D : Type} (h : Heap D) (mtr : MonitorRef) :
    MonitorStatusRef × Heap D :=
  let cache := (heapGet h mtr.cacheRef).getD []
  let res := checkLoop cache StateUp []
  let r := freshRef h
  ({ state := res.1, checkStatusesRef := r }, heapSet h r res.2)

/-- Go `Monitor.setCheckStatus` in the heap model: mutates the map the
monitor references in place. -/
def setCheckStatusHeap {D : Type} (h : Heap D) (mtr : MonitorRef)
    (checkName : String) (checkStatus : CheckStatus D) : Heap D :=
  heapSet h mtr.cacheRef
    (setCheckStatus ((heapGet h mtr.cacheRef).getD []) checkName checkStatus)

/-! ### Concrete inputs used to instantiate the theorems -/

/-- A probe function that always reports `StateUp`. -/
def probeW : CheckFunc Unit := fun _ => { state := StateUp, details := none }

/-- A check with no timeout configured. -/
def checkW : Check Unit :=
  { name := "foo", func := probeW, ttl := 5, timeout := 0 }

/-- A check with a timeout configured. -/
def checkTW : Check Unit :=
  { name := "bar", func := probeW, ttl := 5, timeout := 7 }

/-- A live (not cancelled) registration context with no deadline. -/
def ctxW : Context := { cancelled := false, deadline := none }

/-- A cancelled registration context. -/
def ctxCancelW : Context := { cancelled := true, deadline := none }

/-- A cached entry reporting `StateUp` with a nonzero timestamp. -/
def upEntryW : CheckStatus Unit :=
  { status := { state := StateUp, details := none }, timestamp := 3 }

/-- A cached entry reporting `StateWarn`. -/
def warnEntryW : CheckStatus Unit :=
  { status := { state := StateWarn, details := none }, timestamp := 4 }

/-- A cached entry carrying the out-of-range state value 42. -/
def oddEntryW : CheckStatus Unit :=
  { status := { state := 42, details := none }, timestamp := 0 }

/-- A one-entry cache whose entry is `StateUp` under the name `foo`. -/
def cacheW : Cache Unit := [("foo", upEntryW)]

/-- A two-entry cache with distinct names. -/
def cache2W : Cache Unit := [("a", upEntryW), ("b", warnEntryW)]

/-- A one-entry cache holding the out-of-range state 42. -/
def cacheOddW : Cache Unit := [("x", oddEntryW)]

/-- A polling-task state at the top of its loop with an empty cache. -/
def taskStateW : TaskState Unit :=
  { phase := TaskPhase.waiting, cache := [], timers := { openCount := 0 },
    polls := 0 }

/-- A heap in which reference 1 holds `cacheW`. -/
def heapW : Heap Unit := [(1, cacheW)]

/-- A monitor whose cache lives at reference 1 of `heapW`. -/
def mtrW : MonitorRef := { cacheRef := 1 }

/-- The list of checks registered in one variadic call. -/
def checksW : List (Check Unit) := [checkW, checkTW]

/-! ### Helper lemmas about the map and heap models -/

theorem mapGet_setCheckStatus {D : Type} (cache : Cache D) (k key : String)
    (v : CheckStatus D) :
    mapGet (setCheckStatus cache k v) key =
      if k = key then some v else mapGet cache key := by
  induction cache with
  | nil => simp [setCheckStatus, mapGet]
  | cons e rest ih =>
      obtain ⟨ek, ev⟩ := e
      by_cases hek : ek = k
      · subst hek
        by_cases hky : ek = key <;> simp [setCheckStatus, mapGet, hky]
      · by_cases hky : ek = key
        · subst hky
          simp [setCheckStatus, mapGet, hek, Ne.symm hek, ih]
        · simp [setCheckStatus, mapGet, hek, hky, ih]

theorem heapGet_heapSet {D : Type} (h : Heap D) (r ref : Ref) (c : Cache D) :
    heapGet (heapSet h r c) ref = if r = ref then some c else heapGet h ref := by
  induction h with
  | nil => simp [heapSet, heapGet]
  | cons e rest ih =>
      obtain ⟨er, ec⟩ := e
      by_cases her : er = r
      · subst her
        by_cases hrf : er = ref <;> simp [heapSet, heapGet, hrf]
      · by_cases hrf : er = ref
        · subst hrf
          simp [heapSet, heapGet, her, Ne.symm her, ih]
        · simp [heapSet, heapGet, her, hrf, ih]

theorem mem_le_foldr_max {D : Type} (h : Heap D) (r : Ref)
    (hr : r ∈ h.map Prod.fst) :
    r ≤ h.foldr (fun e m => max e.1 m) 0 := by
  induction h with
  | nil => simp at hr
  | cons e rest ih =>
      simp only [List.map_cons, List.mem_cons] at hr
      simp only [List.foldr]
      rcases hr with rfl | hr
      · exact le_max_left _ _
      · exact le_trans (ih hr) (le_max_right _ _)

theorem mem_lt_freshRef {D : Type} (h : Heap D) (r : Ref)
    (hr : r ∈ h.map Prod.fst) : r < freshRef h :=
  Nat.lt_succ_of_le (mem_le_foldr_max h r hr)

/-! ### Helper lemmas about `compareState` and the aggregation fold -/

theorem compareState_cases (a b : State) :
    compareState a b = StateDown ∨ compareState a b = StateWarn ∨
      compareState a b = StateUp := by
  unfold compareState
  split_ifs <;> simp

theorem checkLoop_state_spec {D : Type} (l : Cache D) :
    ∀ (st : State) (acc : Cache D),
      st = StateDown ∨ st = StateWarn ∨ st = StateUp →
      (checkLoop l st acc).1 =
        cond (decide (st = StateDown) ||
              l.any (fun e => decide (e.2.status.state = StateDown))) StateDown
          (cond (decide (st = StateWarn) ||
                 l.any (fun e => decide (e.2.status.state = StateWarn))) StateWarn
            StateUp) := by
  induction l with
  | nil =>
      intro st acc h
      rcases h with rfl | rfl | rfl <;>
        simp [checkLoop, StateDown, StateWarn, StateUp]
  | cons e rest ih =>
      intro st acc h
      obtain ⟨ek, ecs⟩ := e
      have hstep : (checkLoop ((ek, ecs) :: rest) st acc).1 =
          (checkLoop rest (compareState st ecs.status.state)
            (setCheckStatus acc ek ecs)).1 := rfl
      rw [hstep, ih _ _ (compareState_cases st ecs.status.state)]
      rcases h with rfl | rfl | rfl <;>
        by_cases hd : ecs.status.state = (0 : Int) <;>
        by_cases hw : ecs.status.state = (1 : Int) <;>
        simp [compareState, StateDown, StateWarn, StateUp, hd, hw]

theorem monitorCheck_state_eq {D : Type} (cache : Cache D) :
    (monitorCheck cache).state =
      cond (cache.any (fun e => decide (e.2.status.state = StateDown)))
        StateDown
        (cond (cache.any (fun e => decide (e.2.status.state = StateWarn)))
          StateWarn StateUp) := by
  have h := checkLoop_state_spec cache StateUp [] (Or.inr (Or.inr rfl))
  simp only [monitorCheck]
  rw [h]
  have h2 : decide (StateUp = StateDown) = false := by decide
  have h1 : decide (StateUp = StateWarn) = false := by decide
  simp only [h2, h1, Bool.false_or]

/-! ### Claim C1 -/

/-- C1: `Monitor.Check` returns an overall state equal to `StateDown` if
any cached entry's state is `StateDown`, else `StateWarn` if any entry's
state is `StateWarn`, else `StateUp`; in particular an empty cache (zero
registered checks) yields `StateUp`. -/
theorem check_overall_state_worst {D : Type} (cache : Cache D) :
    (monitorCheck cache).state =
      cond (cache.any (fun e => decide (e.2.status.state = StateDown)))
        StateDown
        (cond (cache.any (fun e => decide (e.2.status.state = StateWarn)))
          StateWarn StateUp) ∧
    (monitorCheck ([] : Cache D)).state = StateUp := by
  exact ⟨monitorCheck_state_eq cache, rfl⟩

/-! ### Claim C2 -/

/-- C2: the synchronous part of `Monitor.Monitor` writes, before
returning, an initial cache entry under the check's name whose state is
`StateDown`, whose details are unset and whose timestamp is the zero
time, so an immediate read finds this entry rather than a missing
key. -/
theorem monitor_seeds_down_entry {D : Type} (cache : Cache D)
    (check : Check D) :
    mapGet (monitorMonitor cache check) check.name =
      some { status := { state := StateDown, details := none },
             timestamp := 0 } := by
  simp [monitorMonitor, mapGet_setCheckStatus, initialStatus]

/-! ### Claim C6 -/

/-- C6: the states are integer ranks with `StateDown (0) < StateWarn (1)
< StateUp (2)`, and on these three states `compareState` is the minimum
(worst) under this ordering; consequently it is commutative there and
`StateUp` is its identity element. -/
theorem compareState_is_min (a b : State)
    (ha : a = StateDown ∨ a = StateWarn ∨ a = StateUp)
    (hb : b = StateDown ∨ b = StateWarn ∨ b = StateUp) :
    StateDown < StateWarn ∧ StateWarn < StateUp ∧
    compareState a b = min a b ∧
    compareState a b = compareState b a ∧
    compareState a StateUp = a ∧ compareState StateUp b = b := by
  rcases ha with rfl | rfl | rfl <;> rcases hb with rfl | rfl | rfl <;> decide

/-- Instantiation of `compareState_is_min` at `StateWarn`, `StateUp`. -/
theorem compareState_is_min_witness :
    StateDown < StateWarn ∧ StateWarn < StateUp ∧
    compareState StateWarn StateUp = min StateWarn StateUp ∧
    compareState StateWarn StateUp = compareState StateUp StateWarn ∧
    compareState StateWarn StateUp = StateWarn ∧
    compareState StateUp StateUp = StateUp :=
  compareState_is_min StateWarn StateUp (Or.inr (Or.inl rfl))
    (Or.inr (Or.inr rfl))

theorem any_or_eq_false_left {α : Type} (l : List α) (p q : α → Bool)
    (h : l.any (fun e => p e || q e) = false) : l.any p = false := by
  induction l with
  | nil => rfl
  | cons x xs ih =>
      simp only [List.any_cons, Bool.or_eq_false_iff] at h ⊢
      exact ⟨h.1.1, ih h.2⟩

theorem any_or_eq_false_right {α : Type} (l : List α) (p q : α → Bool)
    (h : l.any (fun e => p e || q e) = false) : l.any q = false := by
  induction l with
  | nil => rfl
  | cons x xs ih =>
      simp only [List.any_cons, Bool.or_eq_false_iff] at h ⊢
      exact ⟨h.1.2, ih h.2⟩

/-! ### Claim C9 -/

/-- C9: `compareState` maps any pair of states in which neither argument
equals `StateDown` and neither equals `StateWarn` to `StateUp`; hence a
cache none of whose entries is `StateDown` or `StateWarn` — for example
one carrying an out-of-range value such as 42 — aggregates to `StateUp`
and can never degrade the overall state. -/
theorem compareState_undefined_up {D : Type} (a b : State) (cache : Cache D)
    (ha0 : ¬a = StateDown) (ha1 : ¬a = StateWarn)
    (hb0 : ¬b = StateDown) (hb1 : ¬b = StateWarn) :
    compareState a b = StateUp ∧
    (cache.any (fun e => decide (e.2.status.state = StateDown) ||
        decide (e.2.status.state = StateWarn)) = false →
      (monitorCheck cache).state = StateUp) := by
  constructor
  · simp [compareState, ha0, ha1, hb0, hb1]
  · intro hc
    rw [monitorCheck_state_eq,
      any_or_eq_false_left cache _ _ hc, any_or_eq_false_right cache _ _ hc]
    rfl

/-- Instantiation of `compareState_undefined_up` at the out-of-range
state 42 and a one-entry cache holding 42. -/
theorem compareState_undefined_up_witness :
    compareState 42 42 = StateUp ∧ (monitorCheck cacheOddW).state = StateUp :=
  ⟨(compareState_undefined_up 42 42 cacheOddW (by decide) (by decide)
      (by decide) (by decide)).1,
   (compareState_undefined_up 42 42 cacheOddW (by decide) (by decide)
      (by decide) (by decide)).2 (by decide)⟩

/-! ### Claim C10 -/

/-- C10: registering a check whose name already has a cached status
overwrites that entry with the `{State: Down}` zero-timestamp
placeholder before returning, while cache entries of every other name
are left unchanged. -/
theorem reregistration_resets_entry {D : Type} (cache : Cache D)
    (check : Check D) (k : String) (hk : ¬k = check.name) :
    mapGet (monitorMonitor cache check) check.name = some initialStatus ∧
    mapGet (monitorMonitor cache check) k = mapGet cache k := by
  constructor
  · simp [monitorMonitor, mapGet_setCheckStatus]
  · rw [monitorMonitor, mapGet_setCheckStatus,
      if_neg (fun h => hk h.symm)]

/-- Instantiation of `reregistration_resets_entry`: the cache already
maps `foo` to a `StateUp` entry, re-registering a check named `foo`
resets it to the Down placeholder, and the lookup of another name is
unchanged. -/
theorem reregistration_resets_entry_witness :
    mapGet cacheW "foo" = some upEntryW ∧
    upEntryW.status.state = StateUp ∧
    mapGet (monitorMonitor cacheW checkW) checkW.name =
      some initialStatus ∧
    mapGet (monitorMonitor cacheW checkW) "other" = mapGet cacheW "other" :=
  ⟨by decide, by decide,
   (reregistration_resets_entry cacheW checkW "other" (by decide)).1,
   (reregistration_resets_entry cacheW checkW "other" (by decide)).2⟩

/-! ### Claim C3 -/

/-- C3: on a polling iteration, a check with zero timeout has its probe
invoked with the registration context directly; a check with positive
timeout has its probe invoked with a deadline-carrying child context
derived from the registration context, and the deadline-timer resource
opened for it is released by the time the call returns. -/
theorem poll_timeout_handling {D : Type} (ctx : Context) (check : Check D)
    (now : Nat) (tm : Timers) :
    (check.timeout = 0 →
      pollOnce ctx check now tm = (executeCheck ctx check now, tm) ∧
      (executeCheck ctx check now).status = check.func ctx) ∧
    (0 < check.timeout →
      (pollOnce ctx check now tm).1 =
        executeCheck (contextWithTimeout ctx check.timeout now) check now ∧
      (executeCheck (contextWithTimeout ctx check.timeout now) check
          now).status =
        check.func (contextWithTimeout ctx check.timeout now) ∧
      (contextWithTimeout ctx check.timeout now).cancelled = ctx.cancelled ∧
      ¬(contextWithTimeout ctx check.timeout now).deadline = none ∧
      (pollOnce ctx check now tm).2 = tm) := by
  constructor
  · intro h
    rw [pollOnce, if_neg (by omega)]
    exact ⟨rfl, rfl⟩
  · intro h
    rw [pollOnce, if_pos h]
    refine ⟨rfl, rfl, rfl, by simp [contextWithTimeout], ?_⟩
    simp [executeCheckWithTimeout]

/-- Instantiation of `poll_timeout_handling` at a check without timeout
and at a check with timeout 7. -/
theorem poll_timeout_handling_witness :
    (pollOnce ctxW checkW 2 { openCount := 0 } =
      (executeCheck ctxW checkW 2, { openCount := 0 })) ∧
    (pollOnce ctxW checkTW 2 { openCount := 0 }).1 =
      executeCheck (contextWithTimeout ctxW checkTW.timeout 2) checkTW 2 ∧
    (pollOnce ctxW checkTW 2 { openCount := 0 }).2 = { openCount := 0 } :=
  ⟨((poll_timeout_handling ctxW checkW 2 { openCount := 0 }).1 rfl).1,
   ((poll_timeout_handling ctxW checkTW 2 { openCount := 0 }).2
      (by decide)).1,
   ((poll_timeout_handling ctxW checkTW 2 { openCount := 0 }).2
      (by decide)).2.2.2.2⟩

/-! ### Claim C4 -/

theorem taskStep_cancelled {D : Type} (ctx : Context) (check : Check D)
    (now : Nat) (st : TaskState D) (h : ctx.cancelled = true) :
    (taskStep ctx check now st).cache = st.cache ∧
    (taskStep ctx check now st).polls = st.polls ∧
    (taskStep ctx check now st).phase = TaskPhase.stopped := by
  cases hp : st.phase <;> simp [taskStep, hp, h]

theorem taskRun_stopped {D : Type} (ctx : Context) (check : Check D)
    (times : Nat → Nat) :
    ∀ (n : Nat) (st : TaskState D), st.phase = TaskPhase.stopped →
      taskRun ctx check times n st = st := by
  intro n
  induction n with
  | zero => intro st _; rfl
  | succ n ih =>
      intro st h
      have hfix : taskStep ctx check (times n) st = st := by
        simp [taskStep, h]
      have hstep : taskRun ctx check times (n + 1) st =
          taskRun ctx check times n (taskStep ctx check (times n) st) := rfl
      rw [hstep, hfix, ih st h]

/-- C4: once the governing cancellation signal has fired, a polling task
performs no further probe executions (ghost counter `polls` is
unchanged) and no further cache writes (the cache is unchanged) over any
number of loop iterations; the first iteration that observes the
cancellation — at the top of the loop — moves the task to Stopped
without executing the probe. -/
theorem cancelled_task_no_more_writes {D : Type} (ctx : Context)
    (check : Check D) (times : Nat → Nat) (st : TaskState D) (n : Nat)
    (h : ctx.cancelled = true) :
    (taskRun ctx check times n st).cache = st.cache ∧
    (taskRun ctx check times n st).polls = st.polls ∧
    (0 < n → (taskRun ctx check times n st).phase = TaskPhase.stopped) := by
  cases n with
  | zero => exact ⟨rfl, rfl, fun hn => absurd hn (Nat.lt_irrefl 0)⟩
  | succ n =>
      obtain ⟨hc, hp, hph⟩ := taskStep_cancelled ctx check (times n) st h
      have hrun := taskRun_stopped ctx check times n
        (taskStep ctx check (times n) st) hph
      have hstep : taskRun ctx check times (n + 1) st =
          taskRun ctx check times n (taskStep ctx check (times n) st) := rfl
      rw [hstep, hrun]
      exact ⟨hc, hp, fun _ => hph⟩

/-- Instantiation of `cancelled_task_no_more_writes`: two iterations
under a cancelled context leave the cache and the probe counter
untouched and stop the task. -/
theorem cancelled_task_no_more_writes_witness :
    (taskRun ctxCancelW checkW (fun _ => 0) 2 taskStateW).cache =
      taskStateW.cache ∧
    (taskRun ctxCancelW checkW (fun _ => 0) 2 taskStateW).polls =
      taskStateW.polls ∧
    (taskRun ctxCancelW checkW (fun _ => 0) 2 taskStateW).phase =
      TaskPhase.stopped := by
  have h := cancelled_task_no_more_writes ctxCancelW checkW (fun _ => 0)
    taskStateW 2 rfl
  exact ⟨h.1, h.2.1, h.2.2 (by omega)⟩

/-! ### Claim C5 -/

/-- C5: `Monitor.Check` returns a snapshot whose status map is a fresh
copy, not a reference into the monitor's internal cache: the returned
reference differs from the monitor's cache reference, and a subsequent
cache write (`setCheckStatus`) leaves the heap cell holding the
already-returned snapshot unchanged. -/
theorem check_snapshot_independent {D : Type} (h : Heap D)
    (mtr : MonitorRef) (checkName : String) (checkStatus : CheckStatus D)
    (hm : mtr.cacheRef ∈ h.map Prod.fst) :
    ¬(monitorCheckHeap h mtr).1.checkStatusesRef = mtr.cacheRef ∧
    heapGet
        (setCheckStatusHeap (monitorCheckHeap h mtr).2 mtr checkName
          checkStatus)
        (monitorCheckHeap h mtr).1.checkStatusesRef =
      heapGet (monitorCheckHeap h mtr).2
        (monitorCheckHeap h mtr).1.checkStatusesRef := by
  have hlt := mem_lt_freshRef h mtr.cacheRef hm
  have hsr : (monitorCheckHeap h mtr).1.checkStatusesRef = freshRef h := rfl
  constructor
  · rw [hsr]
    exact Nat.ne_of_gt hlt
  · simp only [setCheckStatusHeap]
    rw [heapGet_heapSet, hsr, if_neg (Nat.ne_of_lt hlt)]

/-- Instantiation of `check_snapshot_independent` on a one-cell heap. -/
theorem check_snapshot_independent_witness :
    ¬(monitorCheckHeap heapW mtrW).1.checkStatusesRef = mtrW.cacheRef ∧
    heapGet
        (setCheckStatusHeap (monitorCheckHeap heapW mtrW).2 mtrW "foo"
          warnEntryW)
        (monitorCheckHeap heapW mtrW).1.checkStatusesRef =
      heapGet (monitorCheckHeap heapW mtrW).2
        (monitorCheckHeap heapW mtrW).1.checkStatusesRef :=
  check_snapshot_independent heapW mtrW "foo" warnEntryW (by decide)

/-! ### Claim C7 -/

theorem mapGet_eq_none_of_not_mem {D : Type} (l : Cache D) (k : String)
    (hk : ¬k ∈ l.map Prod.fst) : mapGet l k = none := by
  induction l with
  | nil => rfl
  | cons e rest ih =>
      obtain ⟨ek, ev⟩ := e
      simp only [List.map_cons, List.mem_cons, not_or] at hk
      rw [mapGet, if_neg (fun hh => hk.1 hh.symm), ih hk.2]

theorem checkLoop_copy_get {D : Type} (l : Cache D) :
    ∀ (st : State) (acc : Cache D) (k : String),
      (l.map Prod.fst).Nodup →
      mapGet (checkLoop l st acc).2 k = (mapGet l k).or (mapGet acc k) := by
  induction l with
  | nil => intro st acc k _; rfl
  | cons e rest ih =>
      intro st acc k hnd
      obtain ⟨ek, ecs⟩ := e
      simp only [List.map_cons, List.nodup_cons] at hnd
      obtain ⟨hek, hnd2⟩ := hnd
      have hstep : (checkLoop ((ek, ecs) :: rest) st acc).2 =
          (checkLoop rest (compareState st ecs.status.state)
            (setCheckStatus acc ek ecs)).2 := rfl
      rw [hstep, ih _ _ k hnd2]
      by_cases hk : ek = k
      · subst hk
        rw [mapGet_eq_none_of_not_mem rest ek hek, Option.none_or,
          mapGet_setCheckStatus, if_pos rfl]
        rw [mapGet, if_pos rfl, Option.or_some]
      · rw [mapGet_setCheckStatus, if_neg hk]
        rw [show mapGet ((ek, ecs) :: rest) k = mapGet rest k from by
          rw [mapGet, if_neg hk]]

/-- C7: the core stores and returns a probe's `Status` unchanged: the
`CheckStatus` built by `executeCheck` contains exactly the probe's
returned status (state and details untouched), `setCheckStatus` stores
that `CheckStatus` in the cache verbatim, and the copy produced by
`Monitor.Check` maps every name to exactly the cached entry. -/
theorem status_stored_unchanged {D : Type} (cache : Cache D)
    (check : Check D) (ctx : Context) (now : Nat) (k : String)
    (hnd : (cache.map Prod.fst).Nodup) :
    (executeCheck ctx check now).status = check.func ctx ∧
    mapGet (setCheckStatus cache check.name (executeCheck ctx check now))
        check.name = some (executeCheck ctx check now) ∧
    mapGet (monitorCheck cache).checkStatuses k = mapGet cache k := by
  refine ⟨rfl, ?_, ?_⟩
  · rw [mapGet_setCheckStatus, if_pos rfl]
  · have h := checkLoop_copy_get cache StateUp [] k hnd
    simp only [monitorCheck]
    rw [h]
    cases hmk : mapGet cache k with
    | some v => rw [Option.or_some]
    | none => rw [Option.none_or]; rfl

/-- Instantiation of `status_stored_unchanged` on a two-entry cache with
distinct names. -/
theorem status_stored_unchanged_witness :
    (executeCheck ctxW checkW 9).status = checkW.func ctxW ∧
    mapGet (setCheckStatus cache2W checkW.name (executeCheck ctxW checkW 9))
        checkW.name = some (executeCheck ctxW checkW 9) ∧
    mapGet (monitorCheck cache2W).checkStatuses "b" = mapGet cache2W "b" := by
  have h := status_stored_unchanged cache2W checkW ctxW 9 "b" (by decide)
  exact ⟨h.1, h.2.1, h.2.2⟩

/-! ### Claim C8 -/

theorem monitorMonitorMany_keeps_init {D : Type} (l : List (Check D)) :
    ∀ (cache : Cache D) (k : String),
      mapGet cache k = some initialStatus →
      mapGet (monitorMonitorMany cache l).1 k = some initialStatus := by
  induction l with
  | nil => intro cache k h; exact h
  | cons c rest ih =>
      intro cache k h
      have hstep : (monitorMonitorMany cache (c :: rest)).1 =
          (monitorMonitorMany (monitorMonitor cache c) rest).1 := rfl
      rw [hstep]
      refine ih _ k ?_
      rw [monitorMonitor, mapGet_setCheckStatus]
      by_cases hk : c.name = k
      · rw [if_pos hk]
      · rw [if_neg hk]
        exact h

/-- C8: registration accepts one or more check definitions in a single
call; it starts one polling task per supplied check (in order) and seeds
the Down placeholder under every supplied check's name before any poll
runs. -/
theorem monitor_accepts_many_checks {D : Type} (cache : Cache D)
    (checks : List (Check D)) :
    (monitorMonitorMany cache checks).2 = checks ∧
    ∀ c ∈ checks,
      mapGet (monitorMonitorMany cache checks).1 c.name =
        some initialStatus := by
  induction checks generalizing cache with
  | nil => exact ⟨rfl, fun c hc => absurd hc (List.not_mem_nil c)⟩
  | cons c rest ih =>
      obtain ⟨htask, hseed⟩ := ih (monitorMonitor cache c)
      have hstep2 : (monitorMonitorMany cache (c :: rest)).2 =
          c :: (monitorMonitorMany (monitorMonitor cache c) rest).2 := rfl
      have hstep1 : (monitorMonitorMany cache (c :: rest)).1 =
          (monitorMonitorMany (monitorMonitor cache c) rest).1 := rfl
      refine ⟨by rw [hstep2, htask], ?_⟩
      intro d hd
      rw [hstep1]
      rcases List.mem_cons.mp hd with rfl | hd2
      · refine monitorMonitorMany_keeps_init rest _ d.name ?_
        rw [monitorMonitor, mapGet_setCheckStatus, if_pos rfl]
      · exact hseed d hd2

/-- Instantiation of `monitor_accepts_many_checks` registering two
checks in one call. -/
theorem monitor_accepts_many_checks_witness :
    (monitorMonitorMany ([] : Cache Unit) checksW).2 = checksW ∧
    mapGet (monitorMonitorMany ([] : Cache Unit) checksW).1 checkW.name =
      some initialStatus ∧
    mapGet (monitorMonitorMany ([] : Cache Unit) checksW).1 checkTW.name =
      some initialStatus := by
  have h := monitor_accepts_many_checks ([] : Cache Unit) checksW
  refine ⟨h.1, h.2 checkW ?_, h.2 checkTW ?_⟩
  · exact List.mem_cons_self checkW [checkTW]
  · exact List.mem_cons_of_mem checkW (List.mem_cons_self checkTW [])

end GoHealth
